import Mathlib

/-!
Shallow embedding of the core decoding and validation logic of the
terraform-provider-docker repository (package `internal`):

* `sanitizePath` and `validateContainerName` from `util_tar.go`;
* tar extraction (`extractFileFromTar`, `extractAllFilesFromTar`) from
  `util_tar.go`, with the tar stream modelled as a list of decoded entries;
* the single-file read path of `FileDataSource.Read` (file_data_source.go);
* the log-line decoder `processLogLine` and the decode loop of
  `LogsDataSource.Read` (logs_data_source.go), with lines as byte lists.

Go strings are modelled as `List Char` for paths and names (ASCII data) and
as `List UInt8` for log lines, whose framing is byte-positional.
-/

namespace Docker

instance {ε α : Type} [DecidableEq ε] [DecidableEq α] : DecidableEq (Except ε α) := fun x y =>
  match x, y with
  | .error a, .error b =>
    if h : a = b then isTrue (congrArg Except.error h)
    else isFalse (fun hh => h (by cases hh; rfl))
  | .ok a, .ok b =>
    if h : a = b then isTrue (congrArg Except.ok h)
    else isFalse (fun hh => h (by cases hh; rfl))
  | .error _, .ok _ => isFalse (fun hh => Except.noConfusion hh)
  | .ok _, .error _ => isFalse (fun hh => Except.noConfusion hh)

/-! ### String helpers mirroring the Go `strings` functions used by the code -/

/-- Model of Go's `strings.HasPrefix(s, pat)`: `startsWithL pat s`. -/
def startsWithL : List Char → List Char → Bool
  | [], _ => true
  | _ :: _, [] => false
  | p :: ps, c :: cs => p = c && startsWithL ps cs

/-- Model of Go's `strings.Contains(s, pat)`: `listContains s pat`. -/
def listContains : List Char → List Char → Bool
  | s, pat =>
    startsWithL pat s ||
      match s with
      | [] => false
      | _ :: t => listContains t pat

/-- Go's `strings.TrimPrefix(s, "/")`: drop one leading slash if present. -/
def trimLeadingSlash : List Char → List Char
  | '/' :: t => t
  | l => l

/-! ### `filepath.Clean` (Unix semantics), as used by `sanitizePath` -/

/-- Split a path on `'/'` (like iterating components in Go's `Clean`). -/
def splitSlash : List Char → List (List Char)
  | [] => [[]]
  | '/' :: t => [] :: splitSlash t
  | c :: t =>
    match splitSlash t with
    | h :: r => (c :: h) :: r
    | [] => [[c]]

def isRooted : List Char → Bool
  | '/' :: _ => true
  | _ => false

/-- The component-processing loop of `filepath.Clean`: skip empty and `"."`
components, resolve `".."` against the stack (kept reversed), keeping
leading `".."` components of relative paths and dropping them at the root
of rooted paths. -/
def cleanLoop (rooted : Bool) : List (List Char) → List (List Char) → List (List Char)
  | stack, [] => stack
  | stack, c :: cs =>
    if c = [] || c = ['.'] then cleanLoop rooted stack cs
    else if c = ['.', '.'] then
      match stack with
      | [] => cleanLoop rooted (if rooted then [] else [['.', '.']]) cs
      | top :: rest =>
        if top = ['.', '.'] then cleanLoop rooted (c :: top :: rest) cs
        else cleanLoop rooted rest cs
    else cleanLoop rooted (c :: stack) cs

/-- Join components with `'/'`. -/
def joinSlash : List (List Char) → List Char
  | [] => []
  | [c] => c
  | c :: rest => c ++ '/' :: joinSlash rest

/-- Go's `filepath.Clean` (Unix): lexical normalization resolving `"."`,
`".."` and redundant separators; empty input yields `"."`. -/
def clean (p : List Char) : List Char :=
  if p = [] then ['.']
  else
    let rooted := isRooted p
    let stack := (cleanLoop rooted [] (splitSlash p)).reverse
    if rooted then '/' :: joinSlash stack
    else if stack = [] then ['.']
    else joinSlash stack

/-! ### Path sanitizer (`sanitizePath`, util_tar.go) -/

inductive PathErr
  | emptyPath
  | traversal (original : List Char)
deriving DecidableEq

/-- Model of `sanitizePath` from util_tar.go: reject the empty path, clean the path,
reject if the cleaned path contains `".."` (or, redundantly, starts with
`"../"`), then strip a single leading `"/"`. -/
def sanitizePath (path : List Char) : Except PathErr (List Char) :=
  if path = [] then .error .emptyPath
  else
    let cleaned := clean path
    if listContains cleaned ['.', '.'] || startsWithL ['.', '.', '/'] cleaned then
      .error (.traversal path)
    else
      .ok (trimLeadingSlash cleaned)

/-! ### Container-name validator (`validateContainerName`, util_tar.go) -/

inductive NameErr
  | emptyName
  | invalidFormat (name : List Char)
deriving DecidableEq

def isAlnum (c : Char) : Bool :=
  ('a' ≤ c && c ≤ 'z') || ('A' ≤ c && c ≤ 'Z') || ('0' ≤ c && c ≤ '9')

def isNameChar (c : Char) : Bool :=
  isAlnum c || c = '_' || c = '.' || c = '-'

/-- The anchored regular expression of util_tar.go,
`^[a-zA-Z0-9][a-zA-Z0-9_.-]*$`, as a character-class check. -/
def matchesNameRegex : List Char → Bool
  | [] => false
  | c :: t => isAlnum c && t.all isNameChar

/-- Model of `validateContainerName` from util_tar.go: reject the empty name, then
require the name to match the anchored regular expression. -/
def validateContainerName (name : List Char) : Except NameErr Unit :=
  if name = [] then .error .emptyName
  else if matchesNameRegex name then .ok ()
  else .error (.invalidFormat name)

/-! ### Tar extraction (util_tar.go)

The external `archive/tar` reader is modelled by presenting the stream as a
list of already-decoded entries, each carrying its header fields and the
body bytes the reader can deliver for it.  `io.ReadAll` over one entry
succeeds exactly when the full declared size is available (a short read is
the reader's truncation error). -/

/-- Value of `tar.TypeReg` ('0'). -/
def TypeReg : UInt8 := 48

/-- Constant `MaxFileSize = 10 * 1024 * 1024` from util_tar.go. -/
def MaxFileSize : Int := 10 * 1024 * 1024

structure TarHeader where
  name : String
  typeflag : UInt8
  size : Int
deriving DecidableEq

structure TarEntry where
  header : TarHeader
  body : List UInt8
deriving DecidableEq

/-- Structure `FileInfo` from util_tar.go: header plus content, content `none` for
non-regular entries. -/
structure FileInfo where
  header : TarHeader
  content : Option (List UInt8)
deriving DecidableEq

inductive ExtractErr
  | fileTooLarge (size max : Int)
  | truncatedEntry
deriving DecidableEq

/-- The per-entry body of `extractFileFromTar` (util_tar.go) once `r.Next()`
has yielded a header: non-regular entries get `Content = nil`; a regular
entry whose declared size exceeds `MaxFileSize` is rejected before its body
is read; otherwise the body is read in full. -/
def extractEntry (e : TarEntry) : Except ExtractErr FileInfo :=
  if e.header.typeflag ≠ TypeReg then .ok ⟨e.header, none⟩
  else if e.header.size > MaxFileSize then
    .error (.fileTooLarge e.header.size MaxFileSize)
  else if (e.body.length : Int) = e.header.size then .ok ⟨e.header, some e.body⟩
  else .error .truncatedEntry

/-- Model of `extractFileFromTar` (util_tar.go): advance the stream one entry;
`.ok none` models the `io.EOF` terminal state. -/
def extractFileFromTar : List TarEntry → Except ExtractErr (Option (FileInfo × List TarEntry))
  | [] => .ok none
  | e :: rest =>
    match extractEntry e with
    | .error err => .error err
    | .ok fi => .ok (some (fi, rest))

/-- Insertion into the Go map `files[fileInfo.Header.Name] = fileInfo`:
overwrite an existing key, else append. -/
def mapInsert (m : List (String × FileInfo)) (k : String) (v : FileInfo) :
    List (String × FileInfo) :=
  if m.any (fun p => p.1 = k) then
    m.map (fun p => if p.1 = k then (k, v) else p)
  else m ++ [(k, v)]

/-- The loop of `extractAllFilesFromTar` (util_tar.go). -/
def extractAllLoop : List (String × FileInfo) → List TarEntry →
    Except ExtractErr (List (String × FileInfo))
  | acc, [] => .ok acc
  | acc, e :: rest =>
    match extractEntry e with
    | .error err => .error err
    | .ok fi => extractAllLoop (mapInsert acc fi.header.name fi) rest

/-- Model of `extractAllFilesFromTar` (util_tar.go): extract every entry into a map
keyed by entry name, aborting on the first error. -/
def extractAllFilesFromTar (es : List TarEntry) :
    Except ExtractErr (List (String × FileInfo)) :=
  extractAllLoop [] es

/-! ### Single-file read (`FileDataSource.Read`, file_data_source.go)

The stat record returned by `CopyFromContainer` is external input; the
read's own logic is the tar part: extract all entries, then require exactly
one. -/

structure StatRecord where
  name : String
  size : Int
  mode : Int
  linkTarget : String
deriving DecidableEq

inductive ReadErr
  | extract (e : ExtractErr)
  | notFound
  | ambiguousTarget (names : List String)
deriving DecidableEq

/-- The tar-handling tail of `FileDataSource.Read`: after
`extractAllFilesFromTar`, an empty map is "No Files Found in Tar", a map
with more than one entry is "Multiple Files Found in Tar" listing the file
names, and the single entry is returned together with the stat record. -/
def extractOne (stat : StatRecord) (es : List TarEntry) :
    Except ReadErr (FileInfo × StatRecord) :=
  match extractAllFilesFromTar es with
  | .error e => .error (.extract e)
  | .ok [] => .error .notFound
  | .ok [(_, fi)] => .ok (fi, stat)
  | .ok m => .error (.ambiguousTarget (m.map Prod.fst))

/-! ### Log-line decoding (logs_data_source.go)

Log lines are byte sequences (Go indexes strings by byte); the record's
`timestamp` is `none` when decoding without timestamps (the zero
`basetypes.StringValue`). -/

def DockerLogHeaderSize : Nat := 8
def DockerLogTimestampSize : Nat := 22
def DockerLogTimestampEnd : Nat := DockerLogHeaderSize + DockerLogTimestampSize
def DockerLogMessageStart : Nat := DockerLogTimestampEnd + 9

structure LogRecord where
  stdout : Bool
  stderr : Bool
  message : List UInt8
  timestamp : Option (List UInt8)
deriving DecidableEq

inductive LogErr
  | emptyLine
  | unexpectedStdin
  | unknownMarker (b : UInt8)
  | lineTooShort (need got : Nat)
deriving DecidableEq

/-- Model of `processLogLine` (logs_data_source.go): byte 0 selects the stream
(0x00 stdin is an error, 0x01 stdout, 0x02 stderr, anything else unknown);
with timestamps, bytes 8–29 are the timestamp and the message starts at
byte 39; without, the message starts at byte 8. -/
def processLogLine (line : List UInt8) (timestamps : Bool) : Except LogErr LogRecord :=
  match line with
  | [] => .error .emptyLine
  | b :: _ =>
    if b = 0 then .error .unexpectedStdin
    else if b = 1 ∨ b = 2 then
      if timestamps then
        if line.length < DockerLogMessageStart then
          .error (.lineTooShort DockerLogMessageStart line.length)
        else
          .ok ⟨b = 1, b = 2, line.drop DockerLogMessageStart,
            some ((line.drop DockerLogHeaderSize).take DockerLogTimestampSize)⟩
      else
        if line.length < DockerLogHeaderSize then
          .error (.lineTooShort DockerLogHeaderSize line.length)
        else
          .ok ⟨b = 1, b = 2, line.drop DockerLogHeaderSize, none⟩
    else .error (.unknownMarker b)

/-- The scanner loop of `LogsDataSource.Read`: decode each line in order,
aborting the whole decode on the first bad line. -/
def decodeLogs : List (List UInt8) → Bool → Except LogErr (List LogRecord)
  | [], _ => .ok []
  | l :: ls, ts =>
    match processLogLine l ts with
    | .error e => .error e
    | .ok r =>
      match decodeLogs ls ts with
      | .error e => .error e
      | .ok rs => .ok (r :: rs)

/-- ASCII bytes of a string literal (log lines are ASCII in the claims). -/
def strBytes (s : String) : List UInt8 :=
  s.data.map (fun c => UInt8.ofNat c.toNat)

/-! ### Helper lemmas -/

lemma startsWith_dotdotslash_contains (l : List Char)
    (h : startsWithL ['.', '.', '/'] l = true) : listContains l ['.', '.'] = true := by
  match l with
  | [] => simp [startsWithL] at h
  | [_] => simp [startsWithL] at h
  | c1 :: c2 :: t =>
    simp [startsWithL] at h
    simp [listContains, startsWithL]
    exact Or.inl ⟨h.1, h.2.1⟩

/-! ### Claim theorems -/

/-- Claim C1, counterexample: `sanitizePath` cleans the path before checking
for `".."`, so the traversal in `"a/../b"` cancels out and the path is
accepted as `"b"` rather than rejected. -/
theorem C1_counterexample : sanitizePath "a/../b".data = .ok "b".data := by decide

/-- Claim C1 as amended: `sanitize("a/../b")` succeeds and returns the
normalized path `"b"` (the `".."` segment cancels during cleaning);
`sanitize("a/b/c")` returns `"a/b/c"` unchanged; `sanitize("")` fails with
the empty-path error. -/
theorem C1_amended :
    sanitizePath "a/../b".data = .ok "b".data ∧
    sanitizePath "a/b/c".data = .ok "a/b/c".data ∧
    sanitizePath "".data = .error .emptyPath := by
  exact ⟨by decide, by decide, by decide⟩

/-- Claim C9: `validateContainerName` succeeds exactly on names whose first
character is alphanumeric and whose remaining characters are alphanumeric,
underscore, period, or dash; in particular `"my-app_1.0"` passes while
`".hidden"`, `"-x"` and `""` fail. -/
theorem C9_validate :
    (∀ s : List Char, validateContainerName s = .ok () ↔
      ∃ c t, s = c :: t ∧ isAlnum c = true ∧ ∀ x ∈ t, isNameChar x = true) ∧
    validateContainerName "my-app_1.0".data = .ok () ∧
    validateContainerName ".hidden".data = .error (.invalidFormat ".hidden".data) ∧
    validateContainerName "-x".data = .error (.invalidFormat "-x".data) ∧
    validateContainerName "".data = .error .emptyName := by
  refine ⟨?_, by decide, by decide, by decide, by decide⟩
  intro s
  match s with
  | [] => simp [validateContainerName]
  | c :: t =>
    simp only [validateContainerName, matchesNameRegex]
    rw [if_neg (by simp)]
    by_cases h : (isAlnum c && t.all isNameChar) = true
    · rw [if_pos h]
      simp only [Bool.and_eq_true, List.all_eq_true] at h
      simp only [true_iff, eq_self_iff_true]
      exact ⟨c, t, rfl, h.1, h.2⟩
    · rw [if_neg h]
      constructor
      · intro hcontra; cases hcontra
      · rintro ⟨c', t', heq, ha, hall⟩
        cases heq
        exact absurd (by simp only [Bool.and_eq_true, List.all_eq_true]; exact ⟨ha, hall⟩) h

/-- Claim C10: for every non-empty path, `sanitizePath` fails with the
path-traversal error exactly when the cleaned path contains the substring
`".."`; consequently names that merely contain consecutive dots, such as
`"a..b"` and `"dir/file..txt"`, are rejected. -/
theorem C10_traversal_iff :
    (∀ p : List Char, p ≠ [] →
      (sanitizePath p = .error (.traversal p) ↔
        listContains (clean p) ['.', '.'] = true)) ∧
    sanitizePath "a..b".data = .error (.traversal "a..b".data) ∧
    sanitizePath "dir/file..txt".data = .error (.traversal "dir/file..txt".data) := by
  refine ⟨?_, by decide, by decide⟩
  intro p hp
  unfold sanitizePath
  rw [if_neg hp]
  by_cases h : listContains (clean p) ['.', '.'] = true
  · simp [h]
  · have h2 : startsWithL ['.', '.', '/'] (clean p) = false := by
      cases hs : startsWithL ['.', '.', '/'] (clean p)
      · rfl
      · exact absurd (startsWith_dotdotslash_contains _ hs) h
    simp [Bool.not_eq_true] at h
    simp [h, h2]

/-- Witness for C10 at a concrete traversal path. -/
theorem C10_witness :
    sanitizePath "x/../../y".data = .error (.traversal "x/../../y".data) ↔
      listContains (clean "x/../../y".data) ['.', '.'] = true :=
  C10_traversal_iff.1 "x/../../y".data (by decide)

lemma extractEntry_oversized (e : TarEntry) (hreg : e.header.typeflag = TypeReg)
    (hsz : e.header.size > MaxFileSize) :
    extractEntry e = .error (.fileTooLarge e.header.size MaxFileSize) := by
  unfold extractEntry
  rw [if_neg (by simp [hreg]), if_pos hsz]

lemma extractEntry_regular_ok (e : TarEntry) (hreg : e.header.typeflag = TypeReg)
    (hsz : e.header.size ≤ MaxFileSize) (hbody : (e.body.length : Int) = e.header.size) :
    extractEntry e = .ok ⟨e.header, some e.body⟩ := by
  unfold extractEntry
  rw [if_neg (by simp [hreg]), if_neg (by omega), if_pos hbody]

lemma extractAllLoop_oversized_mem :
    ∀ (es : List TarEntry) (acc : List (String × FileInfo)),
      (∃ e ∈ es, e.header.typeflag = TypeReg ∧ e.header.size > MaxFileSize) →
      ∃ err, extractAllLoop acc es = .error err := by
  intro es
  induction es with
  | nil => intro acc h; simp at h
  | cons e rest ih =>
    intro acc h
    rcases h with ⟨w, hw, hreg, hsz⟩
    rcases List.mem_cons.mp hw with rfl | hw'
    · exact ⟨.fileTooLarge w.header.size MaxFileSize,
        by simp [extractAllLoop, extractEntry_oversized w hreg hsz]⟩
    · cases he : extractEntry e with
      | error err => exact ⟨err, by simp [extractAllLoop, he]⟩
      | ok fi =>
        obtain ⟨err, herr⟩ := ih (mapInsert acc fi.header.name fi) ⟨w, hw', hreg, hsz⟩
        exact ⟨err, by simp [extractAllLoop, he, herr]⟩

lemma extractAllLoop_oversized_first :
    ∀ (pre : List TarEntry) (acc : List (String × FileInfo)) (bad : TarEntry)
      (post : List TarEntry),
      bad.header.typeflag = TypeReg → bad.header.size > MaxFileSize →
      (∀ e ∈ pre, ∃ fi, extractEntry e = .ok fi) →
      extractAllLoop acc (pre ++ bad :: post) =
        .error (.fileTooLarge bad.header.size MaxFileSize) := by
  intro pre
  induction pre with
  | nil =>
    intro acc bad post hreg hsz _
    simp [extractAllLoop, extractEntry_oversized bad hreg hsz]
  | cons e rest ih =>
    intro acc bad post hreg hsz hok
    obtain ⟨fi, hfi⟩ := hok e (List.mem_cons_self e rest)
    have := ih (mapInsert acc fi.header.name fi) bad post hreg hsz
      (fun x hx => hok x (List.mem_cons_of_mem e hx))
    simpa [extractAllLoop, hfi] using this

/-- Claim C2: a regular-file entry whose declared size exceeds
`MaxFileSize` makes per-entry extraction fail with the file-too-large error
whatever bytes its body holds (the size is checked before the body is
read), and `extractAllFilesFromTar` of any archive containing such an entry
returns an error, never a partial map; when every earlier entry extracts
cleanly the error is exactly the file-too-large one. -/
theorem C2_size_cap :
    (∀ (hdr : TarHeader) (body : List UInt8) (rest : List TarEntry),
      hdr.typeflag = TypeReg → hdr.size > MaxFileSize →
      extractFileFromTar (⟨hdr, body⟩ :: rest) =
        .error (.fileTooLarge hdr.size MaxFileSize)) ∧
    (∀ (pre : List TarEntry) (bad : TarEntry) (post : List TarEntry),
      bad.header.typeflag = TypeReg → bad.header.size > MaxFileSize →
      (∀ e ∈ pre, ∃ fi, extractEntry e = .ok fi) →
      extractAllFilesFromTar (pre ++ bad :: post) =
        .error (.fileTooLarge bad.header.size MaxFileSize)) ∧
    (∀ es : List TarEntry,
      (∃ e ∈ es, e.header.typeflag = TypeReg ∧ e.header.size > MaxFileSize) →
      ∃ err, extractAllFilesFromTar es = .error err) := by
  refine ⟨?_, ?_, ?_⟩
  · intro hdr body rest hreg hsz
    simp [extractFileFromTar, extractEntry_oversized ⟨hdr, body⟩ hreg hsz]
  · intro pre bad post hreg hsz hok
    exact extractAllLoop_oversized_first pre [] bad post hreg hsz hok
  · intro es h
    exact extractAllLoop_oversized_mem es [] h

/-- Witness for C2: a single 10 MiB + 1 byte regular entry. -/
theorem C2_witness :
    extractFileFromTar [⟨⟨"big", TypeReg, 10485761⟩, []⟩] =
      .error (.fileTooLarge 10485761 MaxFileSize) ∧
    extractAllFilesFromTar [⟨⟨"big", TypeReg, 10485761⟩, []⟩] =
      .error (.fileTooLarge 10485761 MaxFileSize) ∧
    (extractAllFilesFromTar [⟨⟨"big", TypeReg, 10485761⟩, []⟩]).isOk = false := by
  refine ⟨C2_size_cap.1 ⟨"big", TypeReg, 10485761⟩ [] [] rfl (by decide),
    ?_, ?_⟩
  · have := C2_size_cap.2.1 [] ⟨⟨"big", TypeReg, 10485761⟩, []⟩ [] rfl (by decide)
      (by intro e he; cases he)
    simpa using this
  · obtain ⟨err, herr⟩ := C2_size_cap.2.2 [⟨⟨"big", TypeReg, 10485761⟩, []⟩]
      ⟨⟨⟨"big", TypeReg, 10485761⟩, []⟩, by simp, rfl, by decide⟩
    rw [herr]; rfl

/-- Claim C5: a non-regular entry yields a record with no content, whatever
its declared size, and its extraction succeeds (so in particular it never
fails with the file-too-large error). -/
theorem C5_nonregular :
    ∀ (hdr : TarHeader) (body : List UInt8) (rest : List TarEntry),
      hdr.typeflag ≠ TypeReg →
      extractFileFromTar (⟨hdr, body⟩ :: rest) = .ok (some (⟨hdr, none⟩, rest)) := by
  intro hdr body rest h
  simp [extractFileFromTar, extractEntry, h]

/-- Witness for C5: a directory entry (typeflag '5') with a huge declared
size still extracts as a contentless record. -/
theorem C5_witness :
    extractFileFromTar [⟨⟨"d", 53, 99999999999⟩, []⟩] =
      .ok (some (⟨⟨"d", 53, 99999999999⟩, none⟩, [])) :=
  C5_nonregular ⟨"d", 53, 99999999999⟩ [] [] (by decide)

lemma mapInsert_notmem (m : List (String × FileInfo)) (k : String) (v : FileInfo)
    (h : ∀ p ∈ m, p.1 ≠ k) : mapInsert m k v = m ++ [(k, v)] := by
  unfold mapInsert
  rw [if_neg]
  simp only [List.any_eq_true, not_exists, not_and]
  intro p hp
  simpa using h p hp

lemma extractAllLoop_all_regular :
    ∀ (es : List TarEntry) (acc : List (String × FileInfo)),
      (∀ e ∈ es, e.header.typeflag = TypeReg ∧ e.header.size ≤ MaxFileSize ∧
        (e.body.length : Int) = e.header.size) →
      (es.map (fun e => e.header.name)).Nodup →
      (∀ e ∈ es, ∀ p ∈ acc, p.1 ≠ e.header.name) →
      ∃ m, extractAllLoop acc es = .ok m ∧ m.length = acc.length + es.length ∧
        ∀ p ∈ m, p ∈ acc ∨ ∃ e ∈ es, p = (e.header.name, ⟨e.header, some e.body⟩) := by
  intro es
  induction es with
  | nil =>
    intro acc _ _ _
    exact ⟨acc, rfl, by simp, fun p hp => Or.inl hp⟩
  | cons e rest ih =>
    intro acc hgood hnodup hfresh
    obtain ⟨hreg, hsz, hbody⟩ := hgood e (List.mem_cons_self e rest)
    have hentry := extractEntry_regular_ok e hreg hsz hbody
    have hins : mapInsert acc e.header.name ⟨e.header, some e.body⟩ =
        acc ++ [(e.header.name, ⟨e.header, some e.body⟩)] :=
      mapInsert_notmem acc e.header.name ⟨e.header, some e.body⟩
        (fun p hp => hfresh e (List.mem_cons_self e rest) p hp)
    have hnodup' : (rest.map (fun x => x.header.name)).Nodup :=
      (List.nodup_cons.mp (by simpa using hnodup)).2
    have hhead : e.header.name ∉ rest.map (fun x => x.header.name) :=
      (List.nodup_cons.mp (by simpa using hnodup)).1
    obtain ⟨m, hm, hlen, hmem⟩ :=
      ih (acc ++ [(e.header.name, ⟨e.header, some e.body⟩)])
        (fun x hx => hgood x (List.mem_cons_of_mem e hx)) hnodup'
        (by
          intro x hx p hp
          rcases List.mem_append.mp hp with hp' | hp'
          · exact hfresh x (List.mem_cons_of_mem e hx) p hp'
          · simp at hp'
            rw [hp']
            intro hcontra
            simp at hcontra
            refine hhead ?_
            rw [hcontra]
            exact List.mem_map_of_mem (fun y => y.header.name) hx)
    refine ⟨m, ?_, ?_, ?_⟩
    · simp only [extractAllLoop, hentry]
      rw [hins]
      exact hm
    · simp only [List.length_append, List.length_cons, List.length_nil] at hlen ⊢
      omega
    · intro p hp
      rcases hmem p hp with hp' | ⟨x, hx, hpx⟩
      · rcases List.mem_append.mp hp' with h1 | h1
        · exact Or.inl h1
        · simp at h1
          exact Or.inr ⟨e, List.mem_cons_self e rest, h1⟩
      · exact Or.inr ⟨x, List.mem_cons_of_mem e hx, hpx⟩

/-- Claim C4 as amended: for an archive of regular entries within the size
cap whose entry names are pairwise distinct (the Go map collapses duplicate
names, last entry wins), `extractAllFilesFromTar` succeeds, the map has one
key per entry, and every record's content length equals its declared size. -/
theorem C4_amended :
    ∀ es : List TarEntry,
      (∀ e ∈ es, e.header.typeflag = TypeReg ∧ e.header.size ≤ MaxFileSize ∧
        (e.body.length : Int) = e.header.size) →
      (es.map (fun e => e.header.name)).Nodup →
      ∃ m, extractAllFilesFromTar es = .ok m ∧ m.length = es.length ∧
        ∀ p ∈ m, ∃ b, p.2.content = some b ∧ (b.length : Int) = p.2.header.size := by
  intro es hgood hnodup
  obtain ⟨m, hm, hlen, hmem⟩ :=
    extractAllLoop_all_regular es [] hgood hnodup (by simp)
  refine ⟨m, hm, by simpa using hlen, ?_⟩
  intro p hp
  rcases hmem p hp with h | ⟨e, he, rfl⟩
  · cases h
  · exact ⟨e.body, rfl, (hgood e he).2.2⟩

/-- Claim C4, counterexample: an archive of two in-cap regular entries that
share the name `"a"` extracts to a one-key map, so the key count differs
from the entry count. -/
theorem C4_counterexample :
    (([⟨⟨"a", TypeReg, 0⟩, []⟩, ⟨⟨"a", TypeReg, 0⟩, []⟩] : List TarEntry).all
      fun e => decide (e.header.typeflag = TypeReg) &&
        decide (e.header.size ≤ MaxFileSize) &&
        decide ((e.body.length : Int) = e.header.size)) = true ∧
    extractAllFilesFromTar [⟨⟨"a", TypeReg, 0⟩, []⟩, ⟨⟨"a", TypeReg, 0⟩, []⟩] =
      .ok [("a", ⟨⟨"a", TypeReg, 0⟩, some []⟩)] ∧
    ([⟨⟨"a", TypeReg, 0⟩, []⟩, ⟨⟨"a", TypeReg, 0⟩, []⟩] : List TarEntry).length = 2 := by
  exact ⟨by decide, by decide, rfl⟩

/-- Witness for C4 at a concrete two-entry archive with distinct names. -/
theorem C4_witness :
    (extractAllFilesFromTar
      [⟨⟨"a", TypeReg, 0⟩, []⟩, ⟨⟨"b", TypeReg, 2⟩, [104, 105]⟩]).isOk = true := by
  obtain ⟨m, hm, _, _⟩ := C4_amended
    [⟨⟨"a", TypeReg, 0⟩, []⟩, ⟨⟨"b", TypeReg, 2⟩, [104, 105]⟩]
    (by decide) (by decide)
  rw [hm]; rfl

/-- Claim C3: on an extracted map with exactly one entry, `extractOne`
returns that file record with the top-level stat record; on an empty map it
fails not-found; on a larger map it fails ambiguous-target listing the
map's entry names. -/
theorem C3_extract_one :
    (∀ (stat : StatRecord) (es : List TarEntry) (k : String) (fi : FileInfo),
      extractAllFilesFromTar es = .ok [(k, fi)] →
      extractOne stat es = .ok (fi, stat)) ∧
    (∀ (stat : StatRecord) (es : List TarEntry),
      extractAllFilesFromTar es = .ok [] → extractOne stat es = .error .notFound) ∧
    (∀ (stat : StatRecord) (es : List TarEntry) (m : List (String × FileInfo)),
      extractAllFilesFromTar es = .ok m → m.length > 1 →
      extractOne stat es = .error (.ambiguousTarget (m.map Prod.fst))) := by
  refine ⟨?_, ?_, ?_⟩
  · intro stat es k fi h
    unfold extractOne
    rw [h]
  · intro stat es h
    unfold extractOne
    rw [h]
  · intro stat es m h hlen
    unfold extractOne
    rw [h]
    match m, hlen with
    | (k1, f1) :: (k2, f2) :: rest, _ => rfl

/-- Witness for C3: one-, zero- and two-entry archives. -/
theorem C3_witness :
    extractOne ⟨"f", 0, 0, ""⟩ [⟨⟨"f", TypeReg, 0⟩, []⟩] =
      .ok (⟨⟨"f", TypeReg, 0⟩, some []⟩, ⟨"f", 0, 0, ""⟩) ∧
    extractOne ⟨"f", 0, 0, ""⟩ [] = .error .notFound ∧
    extractOne ⟨"f", 0, 0, ""⟩ [⟨⟨"a", TypeReg, 0⟩, []⟩, ⟨⟨"b", TypeReg, 0⟩, []⟩] =
      .error (.ambiguousTarget ["a", "b"]) := by
  refine ⟨C3_extract_one.1 ⟨"f", 0, 0, ""⟩ [⟨⟨"f", TypeReg, 0⟩, []⟩] "f"
      ⟨⟨"f", TypeReg, 0⟩, some []⟩ (by decide),
    C3_extract_one.2.1 ⟨"f", 0, 0, ""⟩ [] rfl, ?_⟩
  have := C3_extract_one.2.2 ⟨"f", 0, 0, ""⟩
    [⟨⟨"a", TypeReg, 0⟩, []⟩, ⟨⟨"b", TypeReg, 0⟩, []⟩]
    [("a", ⟨⟨"a", TypeReg, 0⟩, some []⟩), ("b", ⟨⟨"b", TypeReg, 0⟩, some []⟩)]
    (by decide) (by decide)
  simpa using this

lemma processLogLine_ok (line : List UInt8) (ts : Bool) (r : LogRecord)
    (h : processLogLine line ts = .ok r) :
    ∃ b t, line = b :: t ∧ (b = 1 ∨ b = 2) ∧
      r.stdout = decide (b = 1) ∧ r.stderr = decide (b = 2) ∧
      r.timestamp.isSome = ts := by
  match line with
  | [] => exact absurd h (by simp [processLogLine])
  | b :: t =>
    refine ⟨b, t, rfl, ?_⟩
    simp only [processLogLine] at h
    by_cases h0 : b = 0
    · rw [if_pos h0] at h; cases h
    rw [if_neg h0] at h
    by_cases h12 : b = 1 ∨ b = 2
    · rw [if_pos h12] at h
      refine ⟨h12, ?_⟩
      split at h
      · rename_i hts
        split at h
        · cases h
        · injection h with h'
          subst h'
          exact ⟨rfl, rfl, hts.symm⟩
      · rename_i hts
        split at h
        · cases h
        · injection h with h'
          subst h'
          refine ⟨rfl, rfl, ?_⟩
          simp at hts
          exact hts.symm
    · rw [if_neg h12] at h; cases h

/-- The concrete line of claim C6: the byte 0x01, the eight characters
`"12345678"`, the 24-character timestamp `"2024-01-01T00:00:00.000Z"`, a
space, and `"hello"` — 39 bytes in all. -/
def c6tail : List UInt8 := strBytes "123456782024-01-01T00:00:00.000Z hello"

def c6line : List UInt8 := 1 :: c6tail

/-- Claim C6, counterexample: the decoder slices the timestamp from bytes
8–29 and the message from byte 39 on, so this 39-byte line decodes with
timestamp `"82024-01-01T00:00:00.0"` and an empty message, not with
timestamp `"2024-01-01T00:00:00.000Z"` and message `"hello"`. -/
theorem C6_counterexample :
    processLogLine c6line true ≠
      .ok ⟨true, false, strBytes "hello", some (strBytes "2024-01-01T00:00:00.000Z")⟩ := by
  decide

/-- Claim C6 as amended: decoding the claim's line with timestamps enabled
yields one Stdout record whose timestamp is the 22 bytes at positions 8–29,
`"82024-01-01T00:00:00.0"`, and whose message (everything from byte 39) is
empty; the same line with first byte 0x03 fails with the
unknown-stream-marker error for 0x03. -/
theorem C6_amended :
    processLogLine c6line true =
      .ok ⟨true, false, [], some (strBytes "82024-01-01T00:00:00.0")⟩ ∧
    processLogLine (3 :: c6tail) true = .error (.unknownMarker 3) := by
  exact ⟨by decide, by decide⟩

/-- Claim C7: the empty line fails with the empty-line error; otherwise
byte 0 dispatches — 0x00 fails unexpected-stdin, a first byte other than
0x00/0x01/0x02 fails unknown-stream-marker carrying that byte, and every
successful decode of a line starting 0x01 (resp. 0x02) is a Stdout
(resp. Stderr) record. -/
theorem C7_marker_dispatch :
    (∀ ts, processLogLine [] ts = .error .emptyLine) ∧
    (∀ t ts, processLogLine (0 :: t) ts = .error .unexpectedStdin) ∧
    (∀ b t ts, b ≠ 0 → b ≠ 1 → b ≠ 2 →
      processLogLine (b :: t) ts = .error (.unknownMarker b)) ∧
    (∀ t ts r, processLogLine (1 :: t) ts = .ok r →
      r.stdout = true ∧ r.stderr = false) ∧
    (∀ t ts r, processLogLine (2 :: t) ts = .ok r →
      r.stdout = false ∧ r.stderr = true) := by
  refine ⟨fun ts => rfl, fun t ts => rfl, ?_, ?_, ?_⟩
  · intro b t ts h0 h1 h2
    simp only [processLogLine]
    rw [if_neg h0, if_neg (by tauto)]
  · intro t ts r h
    obtain ⟨b, t', heq, _, hso, hse, _⟩ := processLogLine_ok (1 :: t) ts r h
    have hb : b = 1 := (List.cons.injEq .. ▸ heq).1.symm
    subst hb
    exact ⟨by rw [hso]; rfl, by rw [hse]; rfl⟩
  · intro t ts r h
    obtain ⟨b, t', heq, _, hso, hse, _⟩ := processLogLine_ok (2 :: t) ts r h
    have hb : b = 2 := (List.cons.injEq .. ▸ heq).1.symm
    subst hb
    exact ⟨by rw [hso]; rfl, by rw [hse]; rfl⟩

/-- The record decoded from the line `0x01 "aaaaaaahi"` without
timestamps. -/
def c7outRec : LogRecord := ⟨true, false, [104, 105], none⟩

/-- The record decoded from the line `0x02 "aaaaaaahi"` without
timestamps. -/
def c7errRec : LogRecord := ⟨false, true, [104, 105], none⟩

/-- Witness for C7: each dispatch outcome at a concrete line. -/
theorem C7_witness :
    processLogLine [] true = .error .emptyLine ∧
    processLogLine [0, 97] true = .error .unexpectedStdin ∧
    processLogLine [7, 97] true = .error (.unknownMarker 7) ∧
    (c7outRec.stdout = true ∧ c7outRec.stderr = false) ∧
    (c7errRec.stdout = false ∧ c7errRec.stderr = true) :=
  ⟨C7_marker_dispatch.1 true, C7_marker_dispatch.2.1 [97] true,
    C7_marker_dispatch.2.2.1 7 [97] true (by decide) (by decide) (by decide),
    C7_marker_dispatch.2.2.2.1 [97, 97, 97, 97, 97, 97, 97, 104, 105] false
      c7outRec (by decide),
    C7_marker_dispatch.2.2.2.2 [97, 97, 97, 97, 97, 97, 97, 104, 105] false
      c7errRec (by decide)⟩

/-- Claim C8: in any successfully decoded sequence, every record has
exactly one of the stdout/stderr flags set, and a record carries a
timestamp exactly when the decode requested timestamps — uniformly across
the sequence. -/
theorem C8_record_invariants :
    ∀ (lines : List (List UInt8)) (ts : Bool) (rs : List LogRecord),
      decodeLogs lines ts = .ok rs →
      ∀ r ∈ rs, r.stdout = !r.stderr ∧ r.timestamp.isSome = ts := by
  intro lines
  induction lines with
  | nil =>
    intro ts rs h r hr
    simp only [decodeLogs] at h
    injection h with h'
    subst h'
    cases hr
  | cons l ls ih =>
    intro ts rs h r hr
    simp only [decodeLogs] at h
    cases hpl : processLogLine l ts with
    | error e => rw [hpl] at h; cases h
    | ok r0 =>
      rw [hpl] at h
      cases hdl : decodeLogs ls ts with
      | error e => rw [hdl] at h; cases h
      | ok rs0 =>
        rw [hdl] at h
        injection h with h'
        subst h'
        rcases List.mem_cons.mp hr with rfl | hr'
        · obtain ⟨b, t, _, hb, hso, hse, hts⟩ := processLogLine_ok l ts r hpl
          refine ⟨?_, hts⟩
          rcases hb with rfl | rfl
          · rw [hso, hse]; rfl
          · rw [hso, hse]; rfl
        · exact ih ts rs0 hdl r hr'

/-- The record decoded from the one-line stderr stream used as the C8
witness input. -/
def c8rec : LogRecord := ⟨false, true, [104, 105], none⟩

/-- Witness for C8 at a concrete one-line stderr decode without
timestamps. -/
theorem C8_witness :
    c8rec.stdout = !c8rec.stderr ∧ c8rec.timestamp.isSome = false :=
  C8_record_invariants [[2, 97, 97, 97, 97, 97, 97, 97, 104, 105]] false
    [c8rec] (by decide) c8rec (by simp)

end Docker
